import Mathlib

/-!
Shallow embedding of the digimarks bookmark manager (marks.py) and proofs of
the specification claims about it.  Pure helpers (`clean_tags`, `strip_url_params`,
the hashing / enrichment plumbing of `Bookmark`) are translated directly; the
record store is a `List Bookmark`, network and file effects are passed in as
explicit outcome values.
-/

/-! ## Tag canonicalizer (marks.py: `clean_tags`, `Bookmark.set_tags`) -/

/-- Python `str.isspace` characters stripped by `str.strip()` (ASCII set). -/
def pyIsSpace (c : Char) : Bool :=
  c == ' ' || c == '\t' || c == '\n' || c == '\x0d' || c == '\x0b' || c == '\x0c'

/-- `str.strip()` on the character list: drop whitespace from both ends. -/
def stripAux (l : List Char) : List Char :=
  ((l.dropWhile pyIsSpace).reverse.dropWhile pyIsSpace).reverse

/-- Python `x.strip()` for a string. -/
def pyStrip (s : String) : String :=
  ⟨stripAux s.data⟩

/-- Python `s.split(',')`: split on every comma, keeping empty pieces. -/
def splitCommaAux : List Char → List Char → List (List Char)
  | [], acc => [acc.reverse]
  | c :: rest, acc =>
      if c = ',' then acc.reverse :: splitCommaAux rest []
      else splitCommaAux rest (c :: acc)

/-- `newtags.split(',')` as a list of strings. -/
def splitTags (s : String) : List String :=
  (splitCommaAux s.data []).map fun l => ⟨l⟩

/-- Python `','.join(...)`. -/
def joinComma : List (List Char) → List Char
  | [] => []
  | [x] => x
  | x :: rest => x ++ ',' :: joinComma rest

/-- `','.join(tags)` over strings. -/
def joinTags (l : List String) : String :=
  ⟨joinComma (l.map String.data)⟩

/-- `unique_everseen` from marks.py: keep first occurrences, remembering `seen`. -/
def uniqueEverseen (seen : List String) : List String → List String
  | [] => []
  | x :: xs =>
      if x ∈ seen then uniqueEverseen seen xs
      else x :: uniqueEverseen (x :: seen) xs

/-- Python's string comparison: lexicographic on code points. -/
def lexLe : List Char → List Char → Bool
  | [], _ => true
  | _ :: _, [] => false
  | a :: as, b :: bs =>
      if a < b then true
      else if b < a then false
      else lexLe as bs

/-- The order `list.sort()` uses on Python strings. -/
def strLe (a b : String) : Prop :=
  lexLe a.data b.data = true

instance : DecidableRel strLe :=
  fun a b => inferInstanceAs (Decidable (lexLe a.data b.data = true))

/-- marks.py `clean_tags`: strip each piece, deduplicate keeping first occurrence,
sort, and drop a leading empty entry. -/
def clean_tags (tags_list : List String) : List String :=
  let res := tags_list.map pyStrip
  let res := uniqueEverseen [] res
  let res := List.insertionSort strLe res
  if res.head? = some "" then res.tail else res

/-- The canonicalization applied by `Bookmark.set_tags`: split the raw string on
commas and run `clean_tags`. -/
def canonicalize (s : String) : List String :=
  clean_tags (splitTags s)

/-- `Bookmark.set_tags` stores the comma-join of the canonical list. -/
def canonicalTagString (s : String) : String :=
  joinTags (canonicalize s)

example : canonicalize "b, a, a, , b" = ["a", "b"] := by decide

example : canonicalize (canonicalTagString "b, a, a, , b") = ["a", "b"] := by decide

/-! ## URL normalizer (marks.py: `Bookmark.strip_url_params`, using `urlparse`
and `urlunparse` from the standard library) -/

deriving instance DecidableEq for Except

/-- The parse result of `urlparse` (scheme, netloc, path, params, query, fragment). -/
structure ParseResult where
  scheme : String
  netloc : String
  path : String
  params : String
  query : String
  fragment : String
deriving DecidableEq

/-- Characters allowed in a URL scheme by `urlsplit`. -/
def schemeChars : List Char :=
  "abcdefghijklmnopqrstuvwxyzABCDEFGHIJKLMNOPQRSTUVWXYZ0123456789+-.".data

/-- Split a character list at the first occurrence of `c` (Python `s.split(c, 1)`
when `c` occurs; `none` when it does not). -/
def splitFirst (c : Char) : List Char → Option (List Char × List Char)
  | [] => none
  | x :: xs =>
      if x = c then some ([], xs)
      else match splitFirst c xs with
        | some (a, b) => some (x :: a, b)
        | none => none

/-- Split at the last occurrence of `c` (used for Python `rfind`). -/
def splitLast (c : Char) (l : List Char) : Option (List Char × List Char) :=
  match splitFirst c l.reverse with
  | some (a, b) => some (b.reverse, a.reverse)
  | none => none

/-- `urlsplit`: scheme / netloc / path / query / fragment, raising `ValueError`
on an unbalanced-bracket netloc ("Invalid IPv6 URL"). -/
def urlsplit (url : String) : Except String ParseResult :=
  let u := url.data
  let sr : List Char × List Char :=
    match splitFirst ':' u with
    | some (before, after) =>
        if before ≠ [] && before.all (fun c => schemeChars.contains c) then
          (before.map Char.toLower, after)
        else ([], u)
    | none => ([], u)
  let scheme := sr.1
  let nr : List Char × List Char :=
    if sr.2.take 2 = ['/', '/'] then
      ((sr.2.drop 2).takeWhile (fun c => !(c = '/' || c = '?' || c = '#')),
       (sr.2.drop 2).dropWhile (fun c => !(c = '/' || c = '?' || c = '#')))
    else ([], sr.2)
  let netloc := nr.1
  if (netloc.contains '[' && !netloc.contains ']') ||
     (netloc.contains ']' && !netloc.contains '[') then
    .error "Invalid IPv6 URL"
  else
    let fr : List Char × List Char :=
      match splitFirst '#' nr.2 with
      | some (a, b) => (a, b)
      | none => (nr.2, [])
    let qr : List Char × List Char :=
      match splitFirst '?' fr.1 with
      | some (a, b) => (a, b)
      | none => (fr.1, [])
    .ok ⟨⟨scheme⟩, ⟨netloc⟩, ⟨qr.1⟩, "", ⟨qr.2⟩, ⟨fr.2⟩⟩

/-- `_splitparams`: split `;params` off the last path segment. -/
def splitparams (url : List Char) : List Char × List Char :=
  if url.contains '/' then
    match splitLast '/' url with
    | some (before, after) =>
        match splitFirst ';' after with
        | some (a1, a2) => (before ++ '/' :: a1, a2)
        | none => (url, [])
    | none => (url, [])
  else
    match splitFirst ';' url with
    | some (a1, a2) => (a1, a2)
    | none => (url, [])

/-- `urlparse`: `urlsplit` plus the params split on the path. -/
def urlparse (url : String) : Except String ParseResult :=
  match urlsplit url with
  | .error e => .error e
  | .ok r =>
      if r.path.data.contains ';' then
        let pr := splitparams r.path.data
        .ok { r with path := ⟨pr.1⟩, params := ⟨pr.2⟩ }
      else .ok r

/-- `urlunsplit`: reassemble scheme / netloc / url / query / fragment. -/
def urlunsplit (scheme netloc url query fragment : String) : String :=
  let url :=
    if netloc ≠ "" || url.data.take 2 = ['/', '/'] then
      "//" ++ netloc ++
        (if url ≠ "" && url.data.head? ≠ some '/' then "/" ++ url else url)
    else url
  let url := if scheme ≠ "" then scheme ++ ":" ++ url else url
  let url := if query ≠ "" then url ++ "?" ++ query else url
  if fragment ≠ "" then url ++ "#" ++ fragment else url

/-- `urlunparse`: fold params back into the path, then `urlunsplit`. -/
def urlunparse (scheme netloc url params query fragment : String) : String :=
  let url := if params ≠ "" then url ++ ";" ++ params else url
  urlunsplit scheme netloc url query fragment

/-- marks.py `Bookmark.strip_url_params`: re-assemble the parsed URL with the
query component replaced by the empty string. -/
def strip_url_params (url : String) : Except String String :=
  match urlparse url with
  | .error e => .error e
  | .ok p => .ok (urlunparse p.scheme p.netloc p.path p.params "" p.fragment)

example : strip_url_params "http://x.com/p?a=1&b=2#frag" = .ok "http://x.com/p#frag" := by
  decide

example : strip_url_params "not a url" = .ok "not a url" := by decide

/-! ## Data model (marks.py: `Bookmark`, `User`, `PublicTag`)

The peewee record store is embedded as a `List` of rows.  Timestamps are
abstract `Nat` clock values; network and file-system effects are passed in as
explicit outcome values. -/

/-- `Bookmark.VISIBLE` -/
def VISIBLE : Nat := 0

/-- `Bookmark.DELETED` -/
def DELETED : Nat := 1

/-- `Bookmark.HTTP_CONNECTIONERROR`: the reserved connection-error status. -/
def HTTP_CONNECTIONERROR : Nat := 0

/-- `Bookmark.HTTP_NOTFOUND` -/
def HTTP_NOTFOUND : Nat := 404

/-- A `Bookmark` row. -/
structure Bookmark where
  userkey : String
  title : String
  url : String
  note : String
  url_hash : String
  tags : String
  starred : Bool
  favicon : Option String
  http_status : Nat
  created_date : Nat
  modified_date : Option Nat
  deleted_date : Option Nat
  status : Nat
deriving DecidableEq

/-- A fresh row with peewee's field defaults, as `get_or_create` inserts it. -/
def newBookmark (userkey url : String) (now : Nat) : Bookmark where
  userkey := userkey
  title := ""
  url := url
  note := ""
  url_hash := ""
  tags := ""
  starred := false
  favicon := none
  http_status := 200
  created_date := now
  modified_date := none
  deleted_date := none
  status := VISIBLE

/-- `Bookmark.set_hash`: recompute `url_hash` from the current `url`.  The MD5
hex digest from `hashlib` is abstracted as the function parameter `md5hex`. -/
def Bookmark.set_hash (md5hex : String → String) (b : Bookmark) : Bookmark :=
  { b with url_hash := md5hex b.url }

/-- `Bookmark.set_tags`: canonicalize and store the comma-joined tag string. -/
def Bookmark.set_tags (b : Bookmark) (newtags : String) : Bookmark :=
  { b with tags := joinTags (clean_tags (splitTags newtags)) }

/-- Outcome of the `requests.get` call in `set_title_from_source`: a response
with its status code and the text of the page's title element (if any), or any
raised exception. -/
inductive GetResult where
  | success (status : Nat) (titleText : Option String)
  | failure
deriving DecidableEq

/-- `Bookmark.set_title_from_source`: any exception from the GET is recorded as
status 404; on a 200/202 response the trimmed title text is stored (empty when
the page has no title element). -/
def Bookmark.set_title_from_source (b : Bookmark) (r : GetResult) : Bookmark :=
  let b1 :=
    match r with
    | .success s _ => { b with http_status := s }
    | .failure => { b with http_status := 404 }
  if b1.http_status = 200 ∨ b1.http_status = 202 then
    match r with
    | .success _ (some t) => { b1 with title := pyStrip t }
    | .success _ none => { b1 with title := "" }
    | .failure => b1
  else b1

/-- Outcome of the `requests.head` call in `set_status_code`: a response status,
or a raised `requests.ConnectionError`. -/
inductive HeadResult where
  | status (n : Nat)
  | connError
deriving DecidableEq

/-- `Bookmark.set_status_code`: record the HEAD status; a `ConnectionError` is
recorded as the `HTTP_CONNECTIONERROR` sentinel. -/
def Bookmark.set_status_code (b : Bookmark) (r : HeadResult) : Bookmark :=
  match r with
  | .status n => { b with http_status := n }
  | .connError => { b with http_status := HTTP_CONNECTIONERROR }

/-- `Bookmark.set_favicon`: the cache lookup / provider download is abstracted
as its outcome — `some f` when a favicon file `domain + extension` was found or
stored, `none` when the provider had none (the early return leaves the field
unchanged). -/
def Bookmark.set_favicon (b : Bookmark) (fav : Option String) : Bookmark :=
  match fav with
  | some f => { b with favicon := some f }
  | none => b

/-! ## Bookmark lifecycle manager (marks.py: `updatebookmark`,
`deletingbookmark`, `undeletebookmark`) -/

/-- The form fields read by `updatebookmark` (an absent field is `""`,
checkboxes are booleans). -/
structure BookmarkForm where
  title : String
  url : String
  tags : String
  note : String
  starred : Bool
  strip : Bool
deriving DecidableEq

/-- What `updatebookmark` returns: the conflict redirect to the existing row's
edit view, the saved bookmark, `None` when no url was supplied, or an uncaught
exception (`Bookmark.DoesNotExist` / `ValueError`). -/
inductive UpdateResult where
  | redirectExisting (urlhash : String)
  | saved (b : Bookmark)
  | noUrl
  | error
deriving DecidableEq

/-- peewee `Bookmark.get_or_create(url=url, userkey=userkey)`: the first row
matching the raw url and user key (any status), or a fresh default row. -/
def get_or_create (store : List Bookmark) (userkey url : String) (now : Nat) :
    Bookmark × Bool :=
  match store.find? (fun b => b.url == url && b.userkey == userkey) with
  | some b => (b, false)
  | none => (newBookmark userkey url now, true)

/-- Replace the first row satisfying `p` (the row `bookmark.save()` updates). -/
def replaceFirst (p : Bookmark → Bool) (b' : Bookmark) : List Bookmark → List Bookmark
  | [] => []
  | x :: xs => if p x then b' :: xs else x :: replaceFirst p b' xs

/-- The field updates `updatebookmark` performs on the fetched-or-created row
once the (possibly stripped) url is known: assign the form fields, canonicalize
tags, recompute the hash, run the title or status enrichment, and fetch the
favicon on a 200/202 status. -/
def applyFields (md5hex : String → String) (form : BookmarkForm) (url : String)
    (getResult : GetResult) (headResult : HeadResult) (fav : Option String)
    (b : Bookmark) : Bookmark :=
  let b := { b with title := form.title }
  let b := { b with url := url, starred := form.starred }
  let b := b.set_tags form.tags
  let b := { b with note := form.note }
  let b := b.set_hash md5hex
  let b :=
    if form.title = "" then b.set_title_from_source getResult
    else b.set_status_code headResult
  if b.http_status = 200 ∨ b.http_status = 202 then b.set_favicon fav else b

/-- The processing `updatebookmark` performs on the fetched-or-created row
before saving; `.error` is the uncaught `ValueError` from `strip_url_params`. -/
def applyForm (md5hex : String → String) (form : BookmarkForm)
    (getResult : GetResult) (headResult : HeadResult) (fav : Option String)
    (b : Bookmark) : Except String Bookmark :=
  match (if form.strip then strip_url_params form.url else .ok form.url) with
  | .error e => .error e
  | .ok url => .ok (applyFields md5hex form url getResult headResult fav b)

/-- marks.py `updatebookmark`: add (no urlhash) or edit (urlhash set) a
bookmark.  Returns the result and the updated store. -/
def updatebookmark (md5hex : String → String) (now : Nat) (store : List Bookmark)
    (userkey : String) (urlhash : Option String) (form : BookmarkForm)
    (getResult : GetResult) (headResult : HeadResult) (fav : Option String) :
    UpdateResult × List Bookmark :=
  if form.url = "" then (.noUrl, store)
  else
    match urlhash with
    | none =>
        match get_or_create store userkey form.url now with
        | (b, false) => (.redirectExisting b.url_hash, store)
        | (b0, true) =>
            match applyForm md5hex form getResult headResult fav b0 with
            | .ok b => (.saved b, store ++ [b])
            | .error _ => (.error, store ++ [b0])
    | some h =>
        match store.find? (fun b => b.userkey == userkey && b.url_hash == h) with
        | none => (.error, store)
        | some b =>
            let b := { b with modified_date := some now }
            match applyForm md5hex form getResult headResult fav b with
            | .ok b' =>
                (.saved b',
                 replaceFirst (fun r => r.userkey == userkey && r.url_hash == h) b' store)
            | .error _ => (.error, store)

/-- marks.py `deletingbookmark`: two UPDATE queries setting status DELETED and
`deleted_date = now` on every row matching `(userkey, urlhash)`. -/
def deletingbookmark (now : Nat) (store : List Bookmark) (userkey urlhash : String) :
    List Bookmark :=
  let s1 := store.map fun b =>
    if b.userkey == userkey && b.url_hash == urlhash then { b with status := DELETED } else b
  s1.map fun b =>
    if b.userkey == userkey && b.url_hash == urlhash then { b with deleted_date := some now }
    else b

/-- marks.py `undeletebookmark`: one UPDATE query setting status VISIBLE on
every row matching `(userkey, urlhash)`. -/
def undeletebookmark (store : List Bookmark) (userkey urlhash : String) :
    List Bookmark :=
  store.map fun b =>
    if b.userkey == userkey && b.url_hash == urlhash then { b with status := VISIBLE } else b

/-! ## Bookmark listing (marks.py: `_find_bookmarks`, `get_bookmarks`)

The SQL ordering by `created_date desc` is presentation only and is abstracted
away: queries are embedded as filters preserving store order. -/

/-- Python `str.lower()` over the character list (ASCII case map). -/
def pyLower (s : String) : String :=
  ⟨s.data.map Char.toLower⟩

/-- Contiguous-substring check over character lists. -/
def infixCheck (needle : List Char) : List Char → Bool
  | [] => needle.isEmpty
  | h :: t => needle.isPrefixOf (h :: t) || infixCheck needle t

/-- SQLite `LIKE '%text%'` (peewee `.contains`): case-insensitive substring. -/
def likeContains (hay needle : String) : Bool :=
  infixCheck (needle.data.map Char.toLower) (hay.data.map Char.toLower)

/-- marks.py `_find_bookmarks`: text search over title/url/note, VISIBLE only. -/
def findBookmarksByText (store : List Bookmark) (userkey filter_text : String) :
    List Bookmark :=
  store.filter fun b =>
    b.userkey == userkey &&
    (likeContains b.title filter_text || likeContains b.url filter_text ||
      likeContains b.note filter_text) &&
    b.status == VISIBLE

/-- marks.py `get_bookmarks`: text search takes precedence, then the
starred / broken / note filters (no status condition), else VISIBLE rows. -/
def get_bookmarks (store : List Bookmark) (userkey : String)
    (filtermethod : Option String) (filter_text : String) : List Bookmark :=
  let filter_starred :=
    match filtermethod with | some m => pyLower m == "starred" | none => false
  let filter_broken :=
    match filtermethod with | some m => pyLower m == "broken" | none => false
  let filter_note :=
    match filtermethod with | some m => pyLower m == "note" | none => false
  if filter_text ≠ "" then findBookmarksByText store userkey filter_text
  else if filter_starred then
    store.filter fun b => b.userkey == userkey && b.starred
  else if filter_broken then
    store.filter fun b => b.userkey == userkey && b.http_status != 200
  else if filter_note then
    store.filter fun b => b.userkey == userkey && b.note != ""
  else
    store.filter fun b => b.userkey == userkey && b.status == VISIBLE

/-! ## Public tag share manager (marks.py: `addpublictag`, `removepublictag`) -/

/-- A `User` row (only the key matters to the share manager). -/
structure User where
  username : String
  key : String
  theme : String
  created_date : Nat
deriving DecidableEq

/-- A `PublicTag` row. -/
structure PublicTag where
  tagkey : String
  userkey : String
  tag : String
  created_date : Nat
deriving DecidableEq

/-- marks.py `addpublictag`: 404 (`none`) when the user key does not exist;
otherwise return the existing share's key unchanged, or insert a fresh row
whose random `generate_key` output is the parameter `freshkey`.  The returned
string is the key of the share in effect after the call. -/
def addpublictag (users : List User) (pts : List PublicTag) (freshkey : String)
    (now : Nat) (userkey tag : String) : Option (List PublicTag × String) :=
  match users.find? (fun u => u.key == userkey) with
  | none => none
  | some _ =>
      match pts.find? (fun p => p.userkey == userkey && p.tag == tag) with
      | some p => some (pts, p.tagkey)
      | none => some (pts ++ [⟨freshkey, userkey, tag, now⟩], freshkey)

/-- marks.py `removepublictag`: DELETE every row matching the triple. -/
def removepublictag (pts : List PublicTag) (userkey tag tagkey : String) :
    List PublicTag :=
  pts.filter fun p => !(p.userkey == userkey && p.tag == tag && p.tagkey == tagkey)

/-! ## Concrete sample values used by the witness theorems -/

/-- A concrete stored bookmark used to instantiate the witnesses. -/
def sampleBookmark : Bookmark where
  userkey := "u1"
  title := "t"
  url := "http://x.com"
  note := ""
  url_hash := "abc"
  tags := ""
  starred := false
  favicon := none
  http_status := 200
  created_date := 0
  modified_date := none
  deleted_date := none
  status := VISIBLE

/-- A concrete submitted form used to instantiate the witnesses. -/
def sampleForm : BookmarkForm where
  title := ""
  url := "http://x.com"
  tags := ""
  note := ""
  starred := false
  strip := false

/-- A concrete stand-in for the md5 hex digest in the witnesses. -/
def constHash : String → String := fun _ => "h"

/-- The bookmark produced by the witness run of `updatebookmark`. -/
def savedSample : Bookmark where
  userkey := "u1"
  title := "T"
  url := "http://x.com"
  note := ""
  url_hash := "h"
  tags := ""
  starred := false
  favicon := none
  http_status := 200
  created_date := 0
  modified_date := none
  deleted_date := none
  status := VISIBLE

/-- A concrete user for the C8 witness. -/
def sampleUser : User where
  username := "Nomen Nescio"
  key := "u"
  theme := "freshgreen"
  created_date := 0

/-- A concrete active share for the C8 witness. -/
def samplePT : PublicTag where
  tagkey := "key1"
  userkey := "u"
  tag := "news"
  created_date := 0

/-- A soft-deleted starred bookmark for the C10 witness. -/
def deletedStarred : Bookmark where
  userkey := "u1"
  title := "t"
  url := "http://gone.example"
  note := "n"
  url_hash := "dead"
  tags := ""
  starred := true
  favicon := none
  http_status := 404
  created_date := 0
  modified_date := none
  deleted_date := some 3
  status := DELETED


/-! ## Properties of the tag canonicalizer (claim C4 support) -/

theorem dropWhile_head_false {p : α → Bool} {l : List α} {x : α}
    (h : (l.dropWhile p).head? = some x) : p x = false := by
  have := List.head?_dropWhile_not p l
  rw [h] at this
  exact this

theorem dropWhile_eq_self_of_head {p : α → Bool} {l : List α}
    (h : ∀ x, l.head? = some x → p x = false) : l.dropWhile p = l := by
  cases l with
  | nil => rfl
  | cons a t =>
      rw [List.dropWhile_cons, if_neg]
      simp [h a rfl]

theorem getLast_dropWhile {p : α → Bool} {l : List α} {x : α}
    (h : (l.dropWhile p).getLast? = some x) : l.getLast? = some x := by
  obtain ⟨t, ht⟩ := List.dropWhile_suffix p (l := l)
  rw [← ht, List.getLast?_append]
  have hne : l.dropWhile p ≠ [] := by
    intro hnil
    rw [hnil] at h
    exact Option.noConfusion h
  rw [h]
  rfl

theorem stripAux_head {l : List Char} {x : Char}
    (h : (stripAux l).head? = some x) : pyIsSpace x = false := by
  unfold stripAux at h
  rw [List.head?_reverse] at h
  have h2 : (l.dropWhile pyIsSpace).reverse.getLast? = some x := getLast_dropWhile h
  rw [List.getLast?_reverse] at h2
  exact dropWhile_head_false h2

theorem stripAux_last {l : List Char} {x : Char}
    (h : (stripAux l).getLast? = some x) : pyIsSpace x = false := by
  unfold stripAux at h
  rw [List.getLast?_reverse] at h
  exact dropWhile_head_false h

theorem stripAux_eq_self {l : List Char}
    (hh : ∀ x, l.head? = some x → pyIsSpace x = false)
    (hl : ∀ x, l.getLast? = some x → pyIsSpace x = false) :
    stripAux l = l := by
  unfold stripAux
  rw [dropWhile_eq_self_of_head hh]
  rw [dropWhile_eq_self_of_head (fun x hx => hl x (by rwa [List.head?_reverse] at hx))]
  exact List.reverse_reverse l

theorem stripAux_idem (l : List Char) : stripAux (stripAux l) = stripAux l :=
  stripAux_eq_self (fun _ h => stripAux_head h) (fun _ h => stripAux_last h)

theorem mem_stripAux {l : List Char} {c : Char} (h : c ∈ stripAux l) : c ∈ l := by
  unfold stripAux at h
  rw [List.mem_reverse] at h
  have h2 := (List.dropWhile_suffix pyIsSpace).mem h
  rw [List.mem_reverse] at h2
  exact (List.dropWhile_suffix pyIsSpace).mem h2

theorem pyStrip_idem (s : String) : pyStrip (pyStrip s) = pyStrip s := by
  unfold pyStrip
  exact congrArg String.mk (stripAux_idem s.data)

theorem splitCommaAux_pieces_comma_free {l acc : List Char}
    (hacc : ','  ∉ acc) :
    ∀ piece ∈ splitCommaAux l acc, ',' ∉ piece := by
  induction l generalizing acc with
  | nil =>
      intro piece hp
      simp only [splitCommaAux, List.mem_singleton] at hp
      subst hp
      simpa [List.mem_reverse] using hacc
  | cons c rest ih =>
      intro piece hp
      simp only [splitCommaAux] at hp
      by_cases hc : c = ','
      · rw [if_pos hc] at hp
        rcases List.mem_cons.mp hp with h1 | h2
        · subst h1
          simpa [List.mem_reverse] using hacc
        · exact ih (by simp) piece h2
      · rw [if_neg hc] at hp
        refine ih ?_ piece hp
        intro hmem
        rcases List.mem_cons.mp hmem with h1 | h2
        · exact hc h1.symm
        · exact hacc h2

theorem splitCommaAux_append {p rest acc : List Char} (hp : ',' ∉ p) :
    splitCommaAux (p ++ rest) acc = splitCommaAux rest (p.reverse ++ acc) := by
  induction p generalizing acc with
  | nil => simp
  | cons c p' ih =>
      have hc : c ≠ ',' := fun h => hp (by simp [h])
      have hp' : ',' ∉ p' := fun h => hp (by simp [h])
      simp only [List.cons_append, splitCommaAux, if_neg (fun h => hc h)]
      exact (ih hp').trans (by simp)

theorem splitComma_joinComma {l : List (List Char)} (hne : l ≠ [])
    (hfree : ∀ p ∈ l, ',' ∉ p) :
    splitCommaAux (joinComma l) [] = l := by
  induction l with
  | nil => exact absurd rfl hne
  | cons p ps ih =>
      cases ps with
      | nil =>
          have hp : ',' ∉ p := hfree p (by simp)
          have := @splitCommaAux_append p [] [] hp
          rw [List.append_nil] at this
          simp only [joinComma, this, splitCommaAux]
          simp
      | cons q qs =>
          have hp : ',' ∉ p := hfree p (by simp)
          have hjoin : joinComma (p :: q :: qs) = p ++ ',' :: joinComma (q :: qs) := rfl
          rw [hjoin, splitCommaAux_append hp, List.append_nil]
          simp only [splitCommaAux]
          rw [if_pos trivial, List.reverse_reverse,
            ih (by simp) (fun r hr => hfree r (by simp [hr]))]

theorem mem_uniqueEverseen {seen l : List String} {x : String}
    (h : x ∈ uniqueEverseen seen l) : x ∈ l := by
  induction l generalizing seen with
  | nil => simp [uniqueEverseen] at h
  | cons a t ih =>
      simp only [uniqueEverseen] at h
      by_cases ha : a ∈ seen
      · rw [if_pos ha] at h
        exact List.mem_cons_of_mem _ (ih h)
      · rw [if_neg ha] at h
        rcases List.mem_cons.mp h with h1 | h2
        · simp [h1]
        · exact List.mem_cons_of_mem _ (ih h2)

theorem uniqueEverseen_spec (l : List String) :
    ∀ seen : List String,
      (uniqueEverseen seen l).Nodup ∧ ∀ x ∈ uniqueEverseen seen l, x ∉ seen := by
  induction l with
  | nil => intro seen; simp [uniqueEverseen]
  | cons a t ih =>
      intro seen
      simp only [uniqueEverseen]
      by_cases ha : a ∈ seen
      · rw [if_pos ha]
        exact ⟨(ih seen).1, (ih seen).2⟩
      · rw [if_neg ha]
        constructor
        · refine List.nodup_cons.mpr ⟨?_, (ih (a :: seen)).1⟩
          intro hmem
          exact (ih (a :: seen)).2 a hmem (by simp)
        · intro x hx
          rcases List.mem_cons.mp hx with h1 | h2
          · subst h1; exact ha
          · intro hxs
            exact (ih (a :: seen)).2 x h2 (by simp [hxs])

theorem uniqueEverseen_nodup (seen l : List String) :
    (uniqueEverseen seen l).Nodup :=
  (uniqueEverseen_spec l seen).1

theorem uniqueEverseen_eq_self {l : List String} (hnd : l.Nodup) :
    ∀ seen : List String, (∀ x ∈ l, x ∉ seen) → uniqueEverseen seen l = l := by
  induction l with
  | nil => intro seen _; rfl
  | cons a t ih =>
      intro seen hdisj
      simp only [uniqueEverseen, if_neg (hdisj a (by simp))]
      rw [ih (List.nodup_cons.mp hnd).2]
      intro x hx
      simp only [List.mem_cons, not_or]
      exact ⟨fun he => (List.nodup_cons.mp hnd).1 (he ▸ hx), hdisj x (by simp [hx])⟩

theorem lexLe_total (a : List Char) : ∀ b : List Char, lexLe a b = true ∨ lexLe b a = true := by
  induction a with
  | nil => intro b; left; rfl
  | cons x xs ih =>
      intro b
      cases b with
      | nil => right; rfl
      | cons y ys =>
          simp only [lexLe]
          rcases lt_trichotomy x y with h | h | h
          · left; rw [if_pos h]
          · subst h
            rcases ih ys with h2 | h2
            · left; rw [if_neg (lt_irrefl x), if_neg (lt_irrefl x)]; exact h2
            · right; rw [if_neg (lt_irrefl x), if_neg (lt_irrefl x)]; exact h2
          · right; rw [if_pos h]

theorem lexLe_trans {a b c : List Char} (hab : lexLe a b = true)
    (hbc : lexLe b c = true) : lexLe a c = true := by
  induction a generalizing b c with
  | nil => rfl
  | cons x xs ih =>
      cases b with
      | nil => exact absurd hab (by simp [lexLe])
      | cons y ys =>
          cases c with
          | nil => exact absurd hbc (by simp [lexLe])
          | cons z zs =>
              simp only [lexLe] at hab hbc ⊢
              rcases lt_trichotomy x y with h1 | h1 | h1
              · rcases lt_trichotomy y z with h2 | h2 | h2
                · rw [if_pos (h1.trans h2)]
                · subst h2; rw [if_pos h1]
                · rw [if_pos h2, if_neg (asymm h2)] at hbc
                  exact absurd hbc (by simp)
              · subst h1
                rw [if_neg (lt_irrefl x), if_neg (lt_irrefl x)] at hab
                rcases lt_trichotomy x z with h2 | h2 | h2
                · rw [if_pos h2]
                · subst h2
                  rw [if_neg (lt_irrefl x), if_neg (lt_irrefl x)] at hbc ⊢
                  exact ih hab hbc
                · rw [if_pos h2, if_neg (asymm h2)] at hbc
                  exact absurd hbc (by simp)
              · rw [if_pos h1, if_neg (asymm h1)] at hab
                exact absurd hab (by simp)

instance : IsTotal String strLe :=
  ⟨fun a b => lexLe_total a.data b.data⟩

instance : IsTrans String strLe :=
  ⟨fun _ _ _ hab hbc => lexLe_trans hab hbc⟩

theorem strLe_empty_right {x : String} (h : strLe x "") : x = "" := by
  unfold strLe at h
  cases hx : x.data with
  | nil =>
      cases x
      simp_all
  | cons c cs =>
      rw [hx] at h
      exact absurd h (by simp [lexLe])

/-- Convenience: `String.mk` is inverse to `String.data`. -/
theorem string_mk_data (s : String) : (⟨s.data⟩ : String) = s := rfl

theorem splitTags_comma_free {s y : String} (hy : y ∈ splitTags s) :
    ',' ∉ y.data := by
  unfold splitTags at hy
  obtain ⟨p, hp, rfl⟩ := List.mem_map.mp hy
  exact splitCommaAux_pieces_comma_free (by simp) p hp

theorem canonicalize_elem {s x : String} (hx : x ∈ canonicalize s) :
    pyStrip x = x ∧ ',' ∉ x.data := by
  unfold canonicalize at hx
  simp only [clean_tags] at hx
  have hx2 : x ∈ List.insertionSort strLe (uniqueEverseen [] ((splitTags s).map pyStrip)) := by
    split at hx
    · exact List.mem_of_mem_tail hx
    · exact hx
  have hx3 := mem_uniqueEverseen ((List.mem_insertionSort strLe).mp hx2)
  obtain ⟨y, hy, rfl⟩ := List.mem_map.mp hx3
  refine ⟨pyStrip_idem y, fun hc => ?_⟩
  exact splitTags_comma_free hy (mem_stripAux hc)

theorem clean_tags_nodup (l : List String) : (clean_tags l).Nodup := by
  simp only [clean_tags]
  have hnd : (List.insertionSort strLe (uniqueEverseen [] (l.map pyStrip))).Nodup :=
    (List.perm_insertionSort strLe _).symm.nodup (uniqueEverseen_nodup _ _)
  split
  · exact hnd.tail
  · exact hnd

theorem clean_tags_sorted (l : List String) : (clean_tags l).Sorted strLe := by
  simp only [clean_tags]
  have hs : (List.insertionSort strLe (uniqueEverseen [] (l.map pyStrip))).Sorted strLe :=
    List.sorted_insertionSort strLe _
  split
  · exact hs.tail
  · exact hs

theorem clean_tags_no_empty (l : List String) : "" ∉ clean_tags l := by
  simp only [clean_tags]
  have hnd : (List.insertionSort strLe (uniqueEverseen [] (l.map pyStrip))).Nodup :=
    (List.perm_insertionSort strLe _).symm.nodup (uniqueEverseen_nodup _ _)
  have hs : (List.insertionSort strLe (uniqueEverseen [] (l.map pyStrip))).Sorted strLe :=
    List.sorted_insertionSort strLe _
  split
  · rename_i hhead
    cases h : List.insertionSort strLe (uniqueEverseen [] (l.map pyStrip)) with
    | nil => simp [h]
    | cons a t =>
        rw [h] at hhead hnd
        have ha : a = "" := by simpa using hhead
        subst ha
        simp only [List.tail_cons]
        exact (List.nodup_cons.mp hnd).1
  · rename_i hhead
    intro hmem
    cases h : List.insertionSort strLe (uniqueEverseen [] (l.map pyStrip)) with
    | nil => rw [h] at hmem; exact List.not_mem_nil _ hmem
    | cons a t =>
        rw [h] at hmem hhead hs
        rcases List.mem_cons.mp hmem with h1 | h2
        · exact hhead (by simp [← h1])
        · have := List.rel_of_sorted_cons hs _ h2
          exact hhead (by simp [strLe_empty_right this])

theorem clean_tags_of_canonical {l : List String}
    (hstrip : ∀ x ∈ l, pyStrip x = x)
    (hfree : ∀ x ∈ l, ',' ∉ x.data)
    (hnd : l.Nodup) (hs : l.Sorted strLe) (hne : "" ∉ l) :
    canonicalize (joinTags l) = l := by
  cases l with
  | nil => decide
  | cons p ps =>
      have hsplit : splitTags (joinTags (p :: ps)) = p :: ps := by
        unfold splitTags joinTags
        rw [splitComma_joinComma (by simp)]
        · rw [List.map_map]
          exact (List.map_congr_left fun x _ => string_mk_data x).trans (List.map_id _)
        · intro q hq
          obtain ⟨x, hx, rfl⟩ := List.mem_map.mp hq
          exact hfree x hx
      unfold canonicalize
      rw [hsplit]
      simp only [clean_tags]
      rw [(List.map_congr_left fun x hx => hstrip x hx).trans (List.map_id _)]
      rw [uniqueEverseen_eq_self hnd [] (by simp)]
      rw [List.Sorted.insertionSort_eq hs]
      rw [if_neg]
      intro hhead
      exact hne (by simp_all)

/-- C4: tag canonicalization (clean_tags composed with the comma-join done by
set_tags) is idempotent, its output has no empty or duplicate elements and is
sorted lexicographically, and `"b, a, a, , b"` canonicalizes to `["a","b"]`. -/
theorem claim_C4 :
    (∀ s : String,
        canonicalize (canonicalTagString s) = canonicalize s ∧
        "" ∉ canonicalize s ∧
        (canonicalize s).Nodup ∧
        (canonicalize s).Sorted strLe) ∧
    canonicalize "b, a, a, , b" = ["a", "b"] := by
  refine ⟨fun s => ⟨?_, clean_tags_no_empty _, clean_tags_nodup _, clean_tags_sorted _⟩,
    by decide⟩
  exact clean_tags_of_canonical
    (fun x hx => (canonicalize_elem hx).1)
    (fun x hx => (canonicalize_elem hx).2)
    (clean_tags_nodup _) (clean_tags_sorted _) (clean_tags_no_empty _)

/-! ## Claim theorems for the lifecycle and enrichment components -/

/-- C5: a connection failure during the lightweight status check records the
reserved sentinel 0, distinct from every real HTTP status (in particular 404). -/
theorem claim_C5 (b : Bookmark) :
    (b.set_status_code .connError).http_status = HTTP_CONNECTIONERROR ∧
    (∀ n : Nat, 100 ≤ n →
      (b.set_status_code (.status n)).http_status = n ∧
      (b.set_status_code (.status n)).http_status ≠ HTTP_CONNECTIONERROR) ∧
    HTTP_CONNECTIONERROR ≠ 404 := by
  refine ⟨rfl, fun n hn => ⟨rfl, ?_⟩, by decide⟩
  simp only [Bookmark.set_status_code, HTTP_CONNECTIONERROR]
  omega

/-- Witness for C5 at a concrete bookmark and the real status 404. -/
theorem claim_C5_witness :
    (sampleBookmark.set_status_code .connError).http_status = HTTP_CONNECTIONERROR ∧
    (sampleBookmark.set_status_code (.status 404)).http_status = 404 ∧
    (sampleBookmark.set_status_code (.status 404)).http_status ≠ HTTP_CONNECTIONERROR :=
  ⟨(claim_C5 sampleBookmark).1,
   ((claim_C5 sampleBookmark).2.1 404 (by decide)).1,
   ((claim_C5 sampleBookmark).2.1 404 (by decide)).2⟩

/-- C6: `strip_url_params` drops the query of
`"http://x.com/p?a=1&b=2#frag"` and keeps scheme, host, path and fragment. -/
theorem claim_C6 :
    strip_url_params "http://x.com/p?a=1&b=2#frag" = .ok "http://x.com/p#frag" := by
  decide

/-- C3 counterexample: soft-delete then restore does NOT clear `deleted_date`:
starting from a bookmark with `deleted_date = none`, the restored row still
carries `deleted_date = some 5`. -/
theorem claim_C3_counterexample :
    sampleBookmark.deleted_date = none ∧
    (undeletebookmark (deletingbookmark 5 [sampleBookmark] "u1" "abc") "u1" "abc").map
        Bookmark.deleted_date = [some 5] ∧
    (undeletebookmark (deletingbookmark 5 [sampleBookmark] "u1" "abc") "u1" "abc").map
        Bookmark.status = [VISIBLE] := by
  decide

/-- C3 (amended): soft-delete then restore returns every matching row to status
VISIBLE with all other fields unchanged, except that `deleted_date` remains set
to the deletion time (it is not cleared). -/
theorem claim_C3_amended (now : Nat) (store : List Bookmark) (u h : String) :
    undeletebookmark (deletingbookmark now store u h) u h =
      store.map fun b =>
        if b.userkey == u && b.url_hash == h then
          { b with status := VISIBLE, deleted_date := some now }
        else b := by
  unfold undeletebookmark deletingbookmark
  simp only [List.map_map]
  refine List.map_congr_left fun b _ => ?_
  by_cases h1 : b.userkey = u
  · by_cases h2 : b.url_hash = h
    · simp [h1, h2]
    · simp [h2]
  · simp [h1]

/-- C1: when the store already holds a row for `(user_key, url)` — with any
visibility status — create (update with no url_hash) returns the redirect to
that row's edit view and leaves the store (hence the existing row and the row
count) unchanged. -/
theorem claim_C1 (md5hex : String → String) (now : Nat) (store : List Bookmark)
    (userkey : String) (form : BookmarkForm) (getR : GetResult)
    (headR : HeadResult) (fav : Option String)
    (hurl : form.url ≠ "")
    (hexist : ∃ r ∈ store, r.url = form.url ∧ r.userkey = userkey) :
    ∃ b ∈ store, b.url = form.url ∧ b.userkey = userkey ∧
      updatebookmark md5hex now store userkey none form getR headR fav =
        (.redirectExisting b.url_hash, store) := by
  have hsome : (store.find? fun b => b.url == form.url && b.userkey == userkey).isSome := by
    rw [List.find?_isSome]
    obtain ⟨r, hr, h1, h2⟩ := hexist
    exact ⟨r, hr, by simp [h1, h2]⟩
  obtain ⟨b, hb⟩ := Option.isSome_iff_exists.mp hsome
  have hmem := List.mem_of_find?_eq_some hb
  have hpred := List.find?_some hb
  simp only [Bool.and_eq_true, beq_iff_eq] at hpred
  refine ⟨b, hmem, hpred.1, hpred.2, ?_⟩
  unfold updatebookmark get_or_create
  rw [if_neg hurl, hb]

/-- Witness for C1: a second submission of `sampleBookmark`'s url for the same
user returns the conflict redirect, leaving the singleton store unchanged. -/
theorem claim_C1_witness :
    updatebookmark constHash 0 [sampleBookmark] "u1" none sampleForm .failure
        .connError none =
      (.redirectExisting "abc", [sampleBookmark]) := by
  obtain ⟨b, hmem, _, _, heq⟩ :=
    claim_C1 constHash 0 [sampleBookmark] "u1" sampleForm .failure .connError none
      (by decide) ⟨sampleBookmark, by simp, by decide, by decide⟩
  have hb : b = sampleBookmark := List.mem_singleton.mp hmem
  subst hb
  exact heq

@[simp] theorem set_title_from_source_url (b : Bookmark) (r : GetResult) :
    (b.set_title_from_source r).url = b.url := by
  unfold Bookmark.set_title_from_source
  cases r with
  | success s t => cases t <;> simp [apply_ite Bookmark.url]
  | failure => simp [apply_ite Bookmark.url]

@[simp] theorem set_title_from_source_url_hash (b : Bookmark) (r : GetResult) :
    (b.set_title_from_source r).url_hash = b.url_hash := by
  unfold Bookmark.set_title_from_source
  cases r with
  | success s t => cases t <;> simp [apply_ite Bookmark.url_hash]
  | failure => simp [apply_ite Bookmark.url_hash]

@[simp] theorem set_status_code_url (b : Bookmark) (r : HeadResult) :
    (b.set_status_code r).url = b.url := by
  cases r <;> simp [Bookmark.set_status_code]

@[simp] theorem set_status_code_url_hash (b : Bookmark) (r : HeadResult) :
    (b.set_status_code r).url_hash = b.url_hash := by
  cases r <;> simp [Bookmark.set_status_code]

@[simp] theorem set_favicon_url (b : Bookmark) (fav : Option String) :
    (b.set_favicon fav).url = b.url := by
  cases fav <;> simp [Bookmark.set_favicon]

@[simp] theorem set_favicon_url_hash (b : Bookmark) (fav : Option String) :
    (b.set_favicon fav).url_hash = b.url_hash := by
  cases fav <;> simp [Bookmark.set_favicon]

@[simp] theorem set_hash_url (md5hex : String → String) (b : Bookmark) :
    (b.set_hash md5hex).url = b.url := rfl

@[simp] theorem set_hash_url_hash (md5hex : String → String) (b : Bookmark) :
    (b.set_hash md5hex).url_hash = md5hex b.url := rfl

theorem applyFields_hash (md5hex : String → String) (form : BookmarkForm)
    (url : String) (getR : GetResult) (headR : HeadResult) (fav : Option String)
    (b0 : Bookmark) :
    (applyFields md5hex form url getR headR fav b0).url_hash =
      md5hex (applyFields md5hex form url getR headR fav b0).url := by
  unfold applyFields
  dsimp only []
  split <;> split <;> simp [Bookmark.set_tags]

theorem applyForm_hash {md5hex : String → String} {form : BookmarkForm}
    {getR : GetResult} {headR : HeadResult} {fav : Option String}
    {b0 b : Bookmark}
    (h : applyForm md5hex form getR headR fav b0 = .ok b) :
    b.url_hash = md5hex b.url := by
  simp only [applyForm] at h
  split at h
  · exact absurd h (by simp)
  · simp only [Except.ok.injEq] at h
    subst h
    exact applyFields_hash md5hex form _ getR headR fav b0

/-- C7: every bookmark persisted by `updatebookmark` carries a `url_hash` equal
to the identity hash of its stored (post-strip) url — `set_hash` runs after the
final url assignment and before `save`, so a stale hash is never persisted. -/
theorem claim_C7 (md5hex : String → String) (now : Nat) (store : List Bookmark)
    (userkey : String) (urlhash : Option String) (form : BookmarkForm)
    (getR : GetResult) (headR : HeadResult) (fav : Option String)
    (b : Bookmark) (store2 : List Bookmark)
    (h : updatebookmark md5hex now store userkey urlhash form getR headR fav =
      (.saved b, store2)) :
    b.url_hash = md5hex b.url := by
  unfold updatebookmark at h
  split at h
  · exact absurd h (by simp)
  · split at h
    · split at h
      · exact absurd h (by simp)
      · split at h
        · rename_i heq
          simp only [Prod.mk.injEq, UpdateResult.saved.injEq] at h
          exact h.1 ▸ applyForm_hash heq
        · exact absurd h (by simp)
    · split at h
      · exact absurd h (by simp)
      · dsimp only [] at h
        split at h
        · rename_i heq
          simp only [Prod.mk.injEq, UpdateResult.saved.injEq] at h
          exact h.1 ▸ applyForm_hash heq
        · exact absurd h (by simp)

/-- Witness for C7: a concrete successful create run persists `savedSample`,
whose hash is the digest of its stored url. -/
theorem claim_C7_witness : savedSample.url_hash = constHash savedSample.url :=
  claim_C7 constHash 0 [] "u1" none sampleForm (.success 200 (some "T")) .connError
    none savedSample [savedSample] (by decide)

@[simp] theorem set_title_from_source_failure (b : Bookmark) :
    b.set_title_from_source .failure = { b with http_status := 404 } := rfl

theorem applyFields_failure {md5hex : String → String} {form : BookmarkForm}
    {url : String} {headR : HeadResult} {fav : Option String} {b0 : Bookmark}
    (htitle : form.title = "") :
    (applyFields md5hex form url .failure headR fav b0).title = "" ∧
    (applyFields md5hex form url .failure headR fav b0).http_status = 404 := by
  obtain ⟨ftitle, furl, ftags, fnote, fstar, fstrip⟩ := form
  subst htitle
  exact ⟨rfl, rfl⟩

theorem applyForm_failure {md5hex : String → String} {form : BookmarkForm}
    {headR : HeadResult} {fav : Option String} {b0 : Bookmark}
    (htitle : form.title = "")
    (hstrip : form.strip = true → ∃ u, strip_url_params form.url = .ok u) :
    ∃ b, applyForm md5hex form .failure headR fav b0 = .ok b ∧
      b.title = "" ∧ b.http_status = 404 := by
  cases hfs : form.strip with
  | false =>
      refine ⟨applyFields md5hex form form.url .failure headR fav b0, ?_,
        (applyFields_failure htitle).1, (applyFields_failure htitle).2⟩
      simp only [applyForm, hfs]
      rfl
  | true =>
      obtain ⟨u2, hu2⟩ := hstrip hfs
      refine ⟨applyFields md5hex form u2 .failure headR fav b0, ?_,
        (applyFields_failure htitle).1, (applyFields_failure htitle).2⟩
      simp only [applyForm, hfs, if_true]
      rw [hu2]

/-- C2 counterexample: with no supplied title and a metadata fetch that raises,
the created bookmark is persisted with `http_status = 404`, which differs from
the connection-error sentinel 0 the claim asserts. -/
theorem claim_C2_counterexample :
    (updatebookmark constHash 0 [] "u1" none sampleForm .failure .connError none).2.map
        Bookmark.http_status = [404] ∧
    (updatebookmark constHash 0 [] "u1" none sampleForm .failure .connError none).2.map
        Bookmark.title = [""] ∧
    HTTP_NOTFOUND ≠ HTTP_CONNECTIONERROR := by
  decide

/-- C2 (amended): when no title is supplied and the title fetch raises, create
does not propagate the exception: it still persists the bookmark with
`title = ""` — but with `http_status = 404` (the source's not-found convention
for the full fetch), not the connection-error sentinel, which only the
status-only check (`set_status_code`) records. -/
theorem claim_C2_amended (md5hex : String → String) (now : Nat)
    (store : List Bookmark) (userkey : String) (form : BookmarkForm)
    (headR : HeadResult) (fav : Option String)
    (hurl : form.url ≠ "") (htitle : form.title = "")
    (hnoconf : (store.find? fun r => r.url == form.url && r.userkey == userkey) = none)
    (hstrip : form.strip = true → ∃ u, strip_url_params form.url = .ok u) :
    ∃ b : Bookmark,
      updatebookmark md5hex now store userkey none form .failure headR fav =
        (.saved b, store ++ [b]) ∧
      b.title = "" ∧ b.http_status = HTTP_NOTFOUND := by
  obtain ⟨b, hb, h1, h2⟩ :=
    @applyForm_failure md5hex form headR fav (newBookmark userkey form.url now)
      htitle hstrip
  refine ⟨b, ?_, h1, h2⟩
  unfold updatebookmark get_or_create
  rw [if_neg hurl, hnoconf]
  simp [hb]

/-- Witness for the amended C2 at a concrete empty store and failing fetch. -/
theorem claim_C2_witness :
    ∃ b : Bookmark,
      updatebookmark constHash 0 [] "u1" none sampleForm .failure .connError none =
        (.saved b, [] ++ [b]) ∧
      b.title = "" ∧ b.http_status = HTTP_NOTFOUND :=
  claim_C2_amended constHash 0 [] "u1" sampleForm .connError none (by decide) rfl rfl
    (fun h => absurd h (by decide))

/-- C8: (a) creating a share twice returns the same tagkey and does not add a
second PublicTag row; (b) after revoking the only active share of
`(user_key, tag)`, a new create issues the freshly generated key, which — the
generated keys being random — differs from the revoked one whenever the
generator does not collide. -/
theorem claim_C8 (users : List User) (pts pts1 : List PublicTag)
    (k1 k2 fresh key1 : String) (n1 n2 n3 : Nat) (u t : String) (p : PublicTag) :
    (addpublictag users pts k1 n1 u t = some (pts1, key1) →
      addpublictag users pts1 k2 n2 u t = some (pts1, key1)) ∧
    (p ∈ pts → p.userkey = u → p.tag = t →
      (∀ q ∈ pts, q.userkey = u → q.tag = t → q = p) →
      (users.find? fun x => x.key == u).isSome →
      fresh ≠ p.tagkey →
      (addpublictag users (removepublictag pts u t p.tagkey) fresh n3 u t).map
          Prod.snd = some fresh ∧ fresh ≠ p.tagkey) := by
  constructor
  · intro h1
    unfold addpublictag at h1 ⊢
    cases hu : users.find? fun x => x.key == u with
    | none =>
        rw [hu] at h1
        exact Option.noConfusion h1
    | some w =>
        rw [hu] at h1
        cases hf : pts.find? fun q => q.userkey == u && q.tag == t with
        | some q =>
            rw [hf] at h1
            obtain ⟨rfl, rfl⟩ : pts = pts1 ∧ q.tagkey = key1 := by
              have h2 := Option.some.inj h1
              exact ⟨congrArg Prod.fst h2, congrArg Prod.snd h2⟩
            rw [hf]
        | none =>
            rw [hf] at h1
            obtain ⟨rfl, rfl⟩ :
                pts ++ [⟨k1, u, t, n1⟩] = pts1 ∧ k1 = key1 := by
              have h2 := Option.some.inj h1
              exact ⟨congrArg Prod.fst h2, congrArg Prod.snd h2⟩
            rw [List.find?_append, hf]
            simp
  · intro hmem hpu hpt huniq husers hfresh
    refine ⟨?_, hfresh⟩
    unfold addpublictag
    cases hu : users.find? fun x => x.key == u with
    | none => exact absurd husers (by simp [hu])
    | some w =>
        have hnone :
            (removepublictag pts u t p.tagkey).find?
              (fun q => q.userkey == u && q.tag == t) = none := by
          rw [List.find?_eq_none]
          intro q hq
          unfold removepublictag at hq
          rw [List.mem_filter] at hq
          intro hq2
          simp only [Bool.and_eq_true, beq_iff_eq] at hq2
          have hqp : q = p := huniq q hq.1 hq2.1 hq2.2
          subst hqp
          simp [hq2.1, hq2.2] at hq
        rw [hnone]
        rfl

/-- Witness for C8: re-creating the existing share returns `"key1"` again
without touching the store, and revoke-then-create issues the distinct fresh
key `"key2"`. -/
theorem claim_C8_witness :
    addpublictag [sampleUser] [samplePT] "k2" 1 "u" "news" = some ([samplePT], "key1") ∧
    (addpublictag [sampleUser] (removepublictag [samplePT] "u" "news" "key1") "key2" 2
        "u" "news").map Prod.snd = some "key2" ∧ "key2" ≠ "key1" := by
  have h := claim_C8 [sampleUser] [samplePT] [samplePT] "k1" "k2" "key2" "key1" 0 1 2
    "u" "news" samplePT
  refine ⟨h.1 (by decide), ?_⟩
  have h2 := h.2 (by decide) (by decide) (by decide)
    (fun q hq _ _ => by simpa using hq) (by decide) (by decide)
  exact ⟨h2.1, h2.2⟩

/-! ## Claim C9: behaviour of the URL normalizer on non-URL input -/

theorem splitFirst_eq_none {c : Char} {l : List Char} (h : c ∉ l) :
    splitFirst c l = none := by
  induction l with
  | nil => rfl
  | cons x xs ih =>
      simp only [splitFirst]
      rw [if_neg (fun he => h (by rw [← he]; exact List.mem_cons_self x xs)),
        ih (fun hm => h (List.mem_cons_of_mem _ hm))]

theorem contains_eq_false {c : Char} {l : List Char} (h : c ∉ l) :
    l.contains c = false := by
  simpa using h

/-- C9 counterexample: `strip_url_params` does not reject input that is not a
URL — it silently coerces, returning the input back as a bare path. -/
theorem claim_C9_counterexample :
    strip_url_params "not a url" = .ok "not a url" := by decide

/-- C9 (amended): `urlparse` never raises on unparseable input (outside the
unbalanced-bracket netloc case): any string without URL metacharacters and not
starting with `//` is coerced to a bare path, and `strip_url_params` returns it
unchanged instead of propagating a MalformedURL error. -/
theorem claim_C9_amended (s : String)
    (hchar : ∀ c ∈ s.data, c ≠ ':' ∧ c ≠ '?' ∧ c ≠ '#' ∧ c ≠ ';')
    (hslash : s.data.take 2 ≠ ['/', '/']) :
    strip_url_params s = .ok s := by
  have hcolon : splitFirst ':' s.data = none :=
    splitFirst_eq_none (fun hm => (hchar _ hm).1 rfl)
  have hhash : splitFirst '#' s.data = none :=
    splitFirst_eq_none (fun hm => (hchar _ hm).2.2.1 rfl)
  have hquest : splitFirst '?' s.data = none :=
    splitFirst_eq_none (fun hm => (hchar _ hm).2.1 rfl)
  have hsemi : ';' ∉ s.data := fun hm => (hchar _ hm).2.2.2 rfl
  unfold strip_url_params urlparse urlsplit urlunparse urlunsplit
  simp only [hcolon, hhash, hquest, if_neg hslash, string_mk_data]
  simp [hslash, hsemi]

/-- Witness for the amended C9 at a concrete non-URL input. -/
theorem claim_C9_witness : strip_url_params "plain words" = .ok "plain words" :=
  claim_C9_amended "plain words" (by decide) (by decide)

/-- C10: the starred / broken / note filters of the bookmark listing ignore
visibility (soft-deleted rows are returned), whereas the unfiltered listing and
the text search return VISIBLE rows only. -/
theorem claim_C10 (store : List Bookmark) (u : String) (b : Bookmark) :
    (b ∈ get_bookmarks store u (some "starred") "" ↔
      b ∈ store ∧ b.userkey = u ∧ b.starred = true) ∧
    (b ∈ get_bookmarks store u (some "broken") "" ↔
      b ∈ store ∧ b.userkey = u ∧ b.http_status ≠ 200) ∧
    (b ∈ get_bookmarks store u (some "note") "" ↔
      b ∈ store ∧ b.userkey = u ∧ b.note ≠ "") ∧
    (b ∈ get_bookmarks store u none "" → b.status = VISIBLE) ∧
    (∀ fm t, t ≠ "" → b ∈ get_bookmarks store u fm t → b.status = VISIBLE) := by
  refine ⟨?_, ?_, ?_, ?_, ?_⟩
  · have h : pyLower "starred" = "starred" := by decide
    simp [get_bookmarks, h, List.mem_filter, and_assoc]
  · have h : pyLower "broken" = "broken" := by decide
    simp [get_bookmarks, h, List.mem_filter, and_assoc]
  · have h : pyLower "note" = "note" := by decide
    simp [get_bookmarks, h, List.mem_filter, and_assoc]
  · intro hmem
    simp [get_bookmarks, List.mem_filter] at hmem
    exact hmem.2.2
  · intro fm t ht hmem
    unfold get_bookmarks at hmem
    rw [if_pos ht] at hmem
    simp [findBookmarksByText, List.mem_filter] at hmem
    exact hmem.2.2

/-- Witness for C10: the soft-deleted `deletedStarred` appears in the starred
filter but not in the unfiltered (VISIBLE-only) listing. -/
theorem claim_C10_witness :
    deletedStarred ∈ get_bookmarks [deletedStarred] "u1" (some "starred") "" ∧
    ¬ deletedStarred ∈ get_bookmarks [deletedStarred] "u1" none "" := by
  constructor
  · exact (claim_C10 [deletedStarred] "u1" deletedStarred).1.mpr
      ⟨by decide, by decide, by decide⟩
  · intro hmem
    have := (claim_C10 [deletedStarred] "u1" deletedStarred).2.2.2.1 hmem
    exact absurd this (by decide)
